import Mathlib

/-!
Formal model of the training harness in `yolo_pretrain_and_finetune`.

The definitions below are shallow embeddings of three source files:
* `scripts/start_train_queue.py` — the sequential task-queue runner;
* `src/trainers/yolo_trainer.py` — the epoch train/eval loop with metric logging;
* `src/train.py` — the CLI entry point (checkpoint resume decision, confirmation prompt).

External effects (subprocess exit codes, document reloads, batch losses and
per-batch category counts produced by the torch backend) are supplied as
parameters ("worlds"); the control flow, arithmetic and produced log/event
traces are translated from the source. Python `ZeroDivisionError` is modelled
by `Except`-valued functions; Python `int`/`float` metric arithmetic is
modelled over `ℚ`.
-/

namespace YoloSpec

/-! ## Python string membership (`needle in hay`) -/

/-- Whether the first list is an initial segment of the second. -/
def startsWithChars : List Char → List Char → Bool
  | [], _ => true
  | _ :: _, [] => false
  | a :: as, b :: bs => a == b && startsWithChars as bs

/-- Whether `needle` occurs contiguously anywhere in the second list. -/
def hasSubChars (needle : List Char) : List Char → Bool
  | [] => needle.isEmpty
  | c :: t => startsWithChars needle (c :: t) || hasSubChars needle t

/-- Python's `needle in hay` on strings. -/
def pyContains (hay needle : String) : Bool :=
  hasSubChars needle.toList hay.toList

/-! ## Task queue runner (`scripts/start_train_queue.py`) -/

/-- One task record of the queue document. `run` and `git_checkout_target`
are optional because validation must check their presence (`task.get(...)`).
The `index`/`name` fields are informational; only `name` is echoed in logs. -/
structure Task where
  name : String
  run : Option String
  git_checkout_target : Option String
deriving DecidableEq, Inhabited

/-- Errors raised by the queue runner: the three `ValueError`s of
`load_and_validate_yaml_file`, and Python's `IndexError` from
`queue["tasks"][task_index]`. -/
inductive QError where
  | missingRun
  | missingCheckoutTarget
  | rmNotAllowed
  | indexError (i : ℕ)
deriving DecidableEq

/-- Decidable equality of `Except` results, for concrete evaluation of
validation outcomes. -/
def exceptDecEq {ε α : Type} [DecidableEq ε] [DecidableEq α] :
    (a b : Except ε α) → Decidable (a = b)
  | .ok x, .ok y =>
    match decEq x y with
    | isTrue h => isTrue (by rw [h])
    | isFalse h => isFalse (fun hc => h (by injection hc))
  | .ok _, .error _ => isFalse (fun hc => Except.noConfusion hc)
  | .error _, .ok _ => isFalse (fun hc => Except.noConfusion hc)
  | .error e, .error f =>
    match decEq e f with
    | isTrue h => isTrue (by rw [h])
    | isFalse h => isFalse (fun hc => h (by injection hc))

instance {ε α : Type} [DecidableEq ε] [DecidableEq α] : DecidableEq (Except ε α) :=
  exceptDecEq

/-- Validation of one task, in source order: missing `run`, missing
`git_checkout_target`, then the `"rm" in task["run"]` substring check. -/
def validateTask (t : Task) : Except QError Unit :=
  match t.run with
  | none => .error .missingRun
  | some r =>
    match t.git_checkout_target with
    | none => .error .missingCheckoutTarget
    | some _ => if pyContains r "rm" then .error .rmNotAllowed else .ok ()

/-- `load_and_validate_yaml_file`: every task of the document is validated,
failing on the first offending task. -/
def validateTasks : List Task → Except QError Unit
  | [] => .ok ()
  | t :: ts =>
    match validateTask t with
    | .error e => .error e
    | .ok () => validateTasks ts

/-- The external world seen by the queue runner: the document contents at the
reload performed in iteration `i` (the document is mutable and re-read every
iteration), and the exit status of the `git checkout … && git pull` command
and of the task's own `run` command at iteration `i`. -/
structure World where
  docs : ℕ → List Task
  checkoutOk : ℕ → Bool
  runOk : ℕ → Bool

/-- Observable per-task outcome: the success / failure console report of
`start_train_queue` (failure when checkout-and-pull or the run command
raises `CalledProcessError`, i.e. exits non-zero). -/
inductive QEvent where
  | taskSuccess (i : ℕ) (name : String)
  | taskFailure (i : ℕ) (name : String)
deriving DecidableEq

/-- The event produced by attempting the task at position `i`: the `except`
block catches `CalledProcessError` from either subprocess, so the failure
report fires iff checkout or run exited non-zero. -/
def taskAttempt (w : World) (i : ℕ) (t : Task) : QEvent :=
  if w.checkoutOk i && w.runOk i then .taskSuccess i t.name else .taskFailure i t.name

/-- Loop guard `task_index < num_tasks`; `num_tasks` starts as
`float("inf")` (modelled `none`) and becomes `len(queue["tasks"])` of the
most recent reload at the end of each iteration. -/
def queueGuard (taskIndex : ℕ) : Option ℕ → Bool
  | none => true
  | some n => taskIndex < n

/-- Result of a queue run: normal exit of the while loop, an uncaught
exception (validation `ValueError` or selection `IndexError`), or fuel
exhaustion of the model (the Python loop can run unboundedly if the
document keeps growing). -/
inductive QResult where
  | finished (events : List QEvent) (finalIndex : ℕ)
  | crashed (events : List QEvent) (err : QError) (atIndex : ℕ)
  | outOfFuel (events : List QEvent)
deriving DecidableEq

/-- The body of `start_train_queue`'s while loop. Each iteration: re-load and
re-validate the document (uncaught `ValueError` on failure), select
`queue["tasks"][task_index]` (uncaught `IndexError` when out of range; a
validated task dict necessarily has a `run` key, hence is truthy, so the
`if not task` early return is unreachable and not modelled), attempt the
task with failure isolation, then advance `task_index` and refresh
`num_tasks`. `events` is accumulated in reverse. -/
def runQueueAux (w : World) : ℕ → ℕ → Option ℕ → List QEvent → QResult
  | 0, _, _, events => .outOfFuel events.reverse
  | fuel + 1, taskIndex, numTasks, events =>
    if queueGuard taskIndex numTasks then
      let tasks := w.docs taskIndex
      match validateTasks tasks with
      | .error e => .crashed events.reverse e taskIndex
      | .ok () =>
        match tasks[taskIndex]? with
        | none => .crashed events.reverse (.indexError taskIndex) taskIndex
        | some t =>
          runQueueAux w fuel (taskIndex + 1) (some tasks.length)
            (taskAttempt w taskIndex t :: events)
    else .finished events.reverse taskIndex

/-- `start_train_queue`: `task_index = 0`, `num_tasks = float("inf")`. -/
def runQueue (w : World) (fuel : ℕ) : QResult :=
  runQueueAux w fuel 0 none []

/-- The outcome report of attempting position `i` (selecting task `i` of the
document reloaded at iteration `i`). -/
def attemptAt (w : World) (i : ℕ) : QEvent :=
  taskAttempt w i ((w.docs i).getD i default)

/-- The per-position outcome reports of a clean run over positions
`0 … N-1`. -/
def cleanEvents (w : World) (N : ℕ) : List QEvent :=
  (List.range N).map (attemptAt w)

/-- The value of `num_tasks` after `M` completed iterations: `float("inf")`
initially, afterwards the length of the last reloaded document. -/
def ntAfter (w : World) : ℕ → Option ℕ
  | 0 => none
  | m + 1 => some ((w.docs m).length)

/-- Iterations `0 … N-1` all proceed normally: the reloaded document
validates, the positional selection is in range, and (for `i ≥ 1`) the loop
guard against the previous reload's length passes. -/
def cleanUpTo (w : World) (N : ℕ) : Prop :=
  ∀ i, i < N →
    (validateTasks (w.docs i)).isOk = true ∧
    i < (w.docs i).length ∧
    (0 < i → i < (w.docs (i - 1)).length)

instance (w : World) (N : ℕ) : Decidable (cleanUpTo w N) := by
  unfold cleanUpTo
  infer_instance

/-! ## Training loop (`src/trainers/yolo_trainer.py`) -/

/-- What one batch of a dataloader yields to the loop: the scalar loss
`loss.item()` and the categorized counts returned by
`utils.get_yolo_metrics`, plus `len(y)`. -/
structure Batch where
  loss : ℚ
  num_correct : ℕ
  num_incorrect_localization : ℕ
  num_incorrect_other : ℕ
  num_incorrect_background : ℕ
  numSamples : ℕ
deriving DecidableEq, Inhabited

/-- The local accumulator variables of `train_step` / `test_step`. -/
structure Counters where
  train_loss : ℚ
  num_correct : ℕ
  num_incorrect_localization : ℕ
  num_incorrect_other : ℕ
  num_incorrect_background : ℕ
  num_predictions : ℕ
deriving DecidableEq, Inhabited

/-- All-zero accumulators, as at function entry. -/
def zeroC : Counters := ⟨0, 0, 0, 0, 0, 0⟩

/-- One batch's accumulation into the running counters. -/
def accumB (c : Counters) (b : Batch) : Counters :=
  { train_loss := c.train_loss + b.loss
    num_correct := c.num_correct + b.num_correct
    num_incorrect_localization := c.num_incorrect_localization + b.num_incorrect_localization
    num_incorrect_other := c.num_incorrect_other + b.num_incorrect_other
    num_incorrect_background := c.num_incorrect_background + b.num_incorrect_background
    num_predictions := c.num_predictions + b.numSamples }

/-- The values of one `run_manager.log_metrics` call of the training loop
(the five fixed dictionary keys `…/loss`, `…/accuracy`,
`…/percent_incorrect_localization`, `…/percent_incorrect_other`,
`…/percent_incorrect_background`, in that order). -/
structure MetricPoint where
  loss : ℚ
  accuracy : ℚ
  percent_incorrect_localization : ℚ
  percent_incorrect_other : ℚ
  percent_incorrect_background : ℚ
deriving DecidableEq

/-- Python's `ZeroDivisionError`. -/
inductive StepError where
  | divByZero
deriving DecidableEq

/-- Observable actions of the loop, tagged with their log step. -/
inductive TEvent where
  | trainPass (epoch : ℕ)
  | evalPass (epoch : ℕ)
  | trainLog (m : MetricPoint) (step : ℚ)
  | valLog (m : MetricPoint) (step : ℚ)
  | lrLog (lr : ℚ) (step : ℚ)
  | saveModel (epoch : ℕ)
  | schedStep
deriving DecidableEq

/-- The metric dictionary built at a `train_step` flush: `loss.item()` of the
current batch `b`, and the four category ratios of the accumulated counters.
All four share denominator `num_predictions`; its first use raises
`ZeroDivisionError` when zero. -/
def flushPoint (b : Batch) (c : Counters) : Except StepError MetricPoint :=
  if c.num_predictions = 0 then .error .divByZero
  else .ok
    { loss := b.loss
      accuracy := (c.num_correct : ℚ) / (c.num_predictions : ℚ)
      percent_incorrect_localization :=
        (c.num_incorrect_localization : ℚ) / (c.num_predictions : ℚ)
      percent_incorrect_other := (c.num_incorrect_other : ℚ) / (c.num_predictions : ℚ)
      percent_incorrect_background :=
        (c.num_incorrect_background : ℚ) / (c.num_predictions : ℚ) }

/-- The post-flush reset of `train_step`: the four category counts and
`num_predictions` are set back to `0`; `train_loss` is not touched by the
source (it is accumulated and never read). -/
def resetCounts (c : Counters) : Counters :=
  { c with num_correct := 0, num_incorrect_localization := 0,
           num_incorrect_other := 0, num_incorrect_background := 0,
           num_predictions := 0 }

/-- The batch loop of `train_step`: accumulate each batch; when
`batch != 0 and batch % log_interval == 0`, log the flush point at step
`epoch + batch / len(dataloader)` and reset the counts. Returns the flush
events in order together with the final accumulator state. -/
def trainStepAux (numBatches log_interval epoch : ℕ) :
    List Batch → ℕ → Counters → Except StepError (List TEvent × Counters)
  | [], _, c => .ok ([], c)
  | b :: bs, batch, c =>
    let c' := accumB c b
    if batch ≠ 0 ∧ batch % log_interval = 0 then do
      let m ← flushPoint b c'
      let (evs, cEnd) ← trainStepAux numBatches log_interval epoch bs (batch + 1) (resetCounts c')
      .ok (TEvent.trainLog m ((epoch : ℚ) + (batch : ℚ) / (numBatches : ℚ)) :: evs, cEnd)
    else
      trainStepAux numBatches log_interval epoch bs (batch + 1) c'

/-- `train_step`: one training pass over the train dataloader. -/
def trainStep (trainBatches : List Batch) (log_interval epoch : ℕ) :
    Except StepError (List TEvent × Counters) := do
  let (evs, c) ← trainStepAux trainBatches.length log_interval epoch trainBatches 0 zeroC
  .ok (TEvent.trainPass epoch :: evs, c)

/-- `test_step`: one evaluation pass over the val dataloader, then a single
`log_metrics` call at step `epoch` with `val/loss = test_loss /
len(dataloader)` (raising `ZeroDivisionError` on an empty dataloader) and
the category ratios over the whole pass (raising when zero samples). -/
def testStep (valBatches : List Batch) (epoch : ℕ) : Except StepError (List TEvent) :=
  let n := valBatches.length
  let c := valBatches.foldl accumB zeroC
  if n = 0 then .error .divByZero
  else if c.num_predictions = 0 then .error .divByZero
  else .ok [TEvent.evalPass epoch,
    TEvent.valLog
      { loss := c.train_loss / (n : ℚ)
        accuracy := (c.num_correct : ℚ) / (c.num_predictions : ℚ)
        percent_incorrect_localization :=
          (c.num_incorrect_localization : ℚ) / (c.num_predictions : ℚ)
        percent_incorrect_other := (c.num_incorrect_other : ℚ) / (c.num_predictions : ℚ)
        percent_incorrect_background :=
          (c.num_incorrect_background : ℚ) / (c.num_predictions : ℚ) }
      (epoch : ℚ)]

/-- The dataloaders and the learning-rate trajectory seen by `train`:
`lrAt s` is `optimizer.param_groups[0]["lr"]` after `s` scheduler steps. -/
structure TWorld where
  trainBatches : List Batch
  valBatches : List Batch
  lrAt : ℕ → ℚ

/-- The epoch loop of `train`: for each epoch `e`, the training pass, the
evaluation pass at `e + 1`, the learning-rate log at `e + 1`, the
conditional checkpoint (`e % checkpoint_interval == 0 or e == epoch_end -
1`), then one scheduler step. `s` counts scheduler steps taken so far. -/
def trainLoop (w : TWorld) (checkpoint_interval epoch_end : ℕ) (log_interval : ℕ) :
    List ℕ → ℕ → Except StepError (List TEvent)
  | [], _ => .ok []
  | e :: es, s => do
    let (trEvs, _) ← trainStep w.trainBatches log_interval e
    let teEvs ← testStep w.valBatches (e + 1)
    let rest ← trainLoop w checkpoint_interval epoch_end log_interval es (s + 1)
    .ok (trEvs ++ teEvs ++ [TEvent.lrLog (w.lrAt s) ((e : ℚ) + 1)]
      ++ (if e % checkpoint_interval = 0 ∨ e = epoch_end - 1
          then [TEvent.saveModel e] else [])
      ++ TEvent.schedStep :: rest)

/-- `train` of `yolo_trainer.py`: one learning-rate log at `epoch_start`
before the loop, then the epoch loop over `range(epoch_start, epoch_end)`. -/
def train (w : TWorld) (epoch_start epoch_end checkpoint_interval log_interval : ℕ) :
    Except StepError (List TEvent) := do
  let rest ← trainLoop w checkpoint_interval epoch_end log_interval
    (List.range' epoch_start (epoch_end - epoch_start)) 0
  .ok (TEvent.lrLog (w.lrAt 0) (epoch_start : ℚ) :: rest)

/-! ## Trace observers -/

/-- Whether an event is an invocation of `train_step`. -/
def isTrainPass : TEvent → Bool
  | .trainPass _ => true
  | _ => false

/-- Whether an event is an invocation of `test_step`. -/
def isEvalPass : TEvent → Bool
  | .evalPass _ => true
  | _ => false

/-- Whether an event is a learning-rate log point. -/
def isLrLog : TEvent → Bool
  | .lrLog _ _ => true
  | _ => false

/-- Whether an event is an in-pass training flush. -/
def isTrainLog : TEvent → Bool
  | .trainLog _ _ => true
  | _ => false

/-- The step of a learning-rate log event, `none` for other events. -/
def lrStepOf : TEvent → Option ℚ
  | .lrLog _ s => some s
  | _ => none

/-- The epoch of a checkpoint-save event, `none` for other events. -/
def savedOf : TEvent → Option ℕ
  | .saveModel e => some e
  | _ => none

/-- The steps at which the learning rate was logged, in trace order. -/
def lrSteps (evs : List TEvent) : List ℚ :=
  evs.filterMap lrStepOf

/-- The epochs at which `run_manager.save_model` was called, in order. -/
def savedEpochs (evs : List TEvent) : List ℕ :=
  evs.filterMap savedOf

/-- The events of a run that is assumed to have succeeded. -/
def okEvents (r : Except StepError (List TEvent)) : List TEvent :=
  match r with
  | .ok evs => evs
  | .error _ => []

/-- Number of learning-rate log points of a run (`0` for a failed run). -/
def lrCount (r : Except StepError (List TEvent)) : ℕ :=
  (okEvents r).countP (fun ev => isLrLog ev)

/-! ## Windowed-metric reference recursion (spec comparison for the flushes) -/

/-- Total sample count of a window of batches. -/
def windowSampleCount (win : List Batch) : ℕ :=
  (win.map Batch.numSamples).sum

/-- The metric point a flush actually reports, expressed over the explicit
window `win` of batches accumulated since the last reset, with `b` the batch
at the flush: category ratios are windowed averages over `win`, while the
`loss` field is `b`'s own loss. -/
def windowPoint (b : Batch) (win : List Batch) : MetricPoint :=
  { loss := b.loss
    accuracy := ((win.map Batch.num_correct).sum : ℚ) / (windowSampleCount win : ℚ)
    percent_incorrect_localization :=
      ((win.map Batch.num_incorrect_localization).sum : ℚ) / (windowSampleCount win : ℚ)
    percent_incorrect_other :=
      ((win.map Batch.num_incorrect_other).sum : ℚ) / (windowSampleCount win : ℚ)
    percent_incorrect_background :=
      ((win.map Batch.num_incorrect_background).sum : ℚ) / (windowSampleCount win : ℚ) }

/-- Modelled from the spec: the "windowed average of the per-step losses"
(`loss_sum` over the window's sample span) that the spec says each flushed
training point reports. -/
def windowLossAvg (win : List Batch) : ℚ :=
  (win.map Batch.loss).sum / (windowSampleCount win : ℚ)

/-- Reference recursion for `train_step`'s flush trace, tracking the window
of batches since the last reset explicitly instead of running counters. -/
def trainStepSpecAux (numBatches log_interval epoch : ℕ) :
    List Batch → ℕ → List Batch → Option (List TEvent)
  | [], _, _ => some []
  | b :: bs, batch, win =>
    let win' := win ++ [b]
    if batch ≠ 0 ∧ batch % log_interval = 0 then
      if windowSampleCount win' = 0 then none
      else
        match trainStepSpecAux numBatches log_interval epoch bs (batch + 1) [] with
        | none => none
        | some evs =>
          some (TEvent.trainLog (windowPoint b win')
            ((epoch : ℚ) + (batch : ℚ) / (numBatches : ℚ)) :: evs)
    else trainStepSpecAux numBatches log_interval epoch bs (batch + 1) win'

/-- The count-valued fields of the accumulator (everything except the
never-reset `train_loss`). -/
def countsOf (c : Counters) : ℕ × ℕ × ℕ × ℕ × ℕ :=
  (c.num_correct, c.num_incorrect_localization, c.num_incorrect_other,
   c.num_incorrect_background, c.num_predictions)

/-- The same five counts computed from an explicit window of batches. -/
def windowCounts (win : List Batch) : ℕ × ℕ × ℕ × ℕ × ℕ :=
  ((win.map Batch.num_correct).sum, (win.map Batch.num_incorrect_localization).sum,
   (win.map Batch.num_incorrect_other).sum, (win.map Batch.num_incorrect_background).sum,
   windowSampleCount win)

/-! ## Checkpoint resume (`src/train.py` lines 66–70) -/

/-- How a checkpoint was resolved by the loader. -/
inductive CkptSource where
  | explicitPath (p : String)
  | latestOf (run_id : String)
deriving DecidableEq

/-- `NotFoundError` of the checkpoint store. -/
inductive CkptError where
  | notFound
deriving DecidableEq

/-- The persisted checkpoint records: the recorded epoch metadata of the
artifact at a path, and the epoch of the latest checkpoint of a run. -/
structure CkptStore where
  epochAtPath : String → Option ℕ
  latestEpoch : String → Option ℕ

/-- Modelled from the spec: `load_checkpoint` is defined in
`run_manager.py`, which is not under `src/`. Spec §4.4 (CheckpointStore):
"if `explicit_path` is given, load exactly that artifact and derive
`epoch_index` from its recorded metadata; otherwise resolve the latest
checkpoint for `run_id`. Fails with NotFoundError if neither resolves." -/
def load_checkpoint (store : CkptStore) (run_id checkpoint_path : Option String) :
    Except CkptError (CkptSource × ℕ) :=
  match checkpoint_path with
  | some p =>
    match store.epochAtPath p with
    | some e => .ok (.explicitPath p, e)
    | none => .error .notFound
  | none =>
    match run_id with
    | some r =>
      match store.latestEpoch r with
      | some e => .ok (.latestOf r, e)
      | none => .error .notFound
    | none => .error .notFound

/-- Lines 66–70 of `src/train.py`: `load_checkpoint` is called only when
`continue_from_checkpoint_run_id is not None and continue_from_checkpoint_path
is None`; in every other case `epoch_start = 0` with no load. Returns the
resolved source (if any load happened) and the resulting `epoch_start`. -/
def resumeDecision (store : CkptStore) (run_id checkpoint_path : Option String) :
    Except CkptError (Option CkptSource × ℕ) :=
  if run_id ≠ none ∧ checkpoint_path = none then
    match load_checkpoint store run_id checkpoint_path with
    | .ok (src, e) => .ok (some src, e)
    | .error err => .error err
  else .ok (none, 0)

/-! ## Interactive confirmation (`src/train.py` `__main__`) -/

/-- Python's `str.lower()` (faithful on ASCII input, which is all the
affirmative check compares against). -/
def pyLower (s : String) : String := String.mk (s.toList.map Char.toLower)

/-- The uncaught `Exception("Type yes on input...")` of the entry point
(only `KeyboardInterrupt` is caught there). -/
inductive ConfirmError where
  | rejected
deriving DecidableEq

/-- Side effects of the entry point after the prompt. -/
inductive EntryEvent where
  | printStart (run_id : String)
  | trainInvoked
deriving DecidableEq

/-- The confirmation gate of `__main__`: if `inp.lower() != "yes"` an
exception is raised before `train(args)` — and hence before any dataloader,
model or run construction inside it — otherwise the start banner is printed
and `train(args)` runs. -/
def mainConfirm (inp run_id : String) : Except ConfirmError (List EntryEvent) :=
  if pyLower inp ≠ "yes" then .error .rejected
  else .ok [.printStart run_id, .trainInvoked]

/-! ## Concrete instances used by witnesses and counterexamples -/

/-- Static two-task document that then grows to three tasks: the loop runs
past the original length. -/
def w3grow : World :=
  ⟨fun i => if i = 0 then
      [⟨"a", some "python a.py", some "main"⟩, ⟨"b", some "python b.py", some "main"⟩]
    else
      [⟨"a", some "python a.py", some "main"⟩, ⟨"b", some "python b.py", some "main"⟩,
       ⟨"c", some "python c.py", some "main"⟩],
   fun _ => true, fun _ => true⟩

/-- Three-task document that shrinks to one task after the first attempt. -/
def w3shr : World :=
  ⟨fun i => if i = 0 then
      [⟨"a", some "python a.py", some "main"⟩, ⟨"b", some "python b.py", some "main"⟩,
       ⟨"c", some "python c.py", some "main"⟩]
    else [⟨"a", some "python a.py", some "main"⟩],
   fun _ => true, fun _ => true⟩

/-- Three static tasks where exactly the second one's checkout command
exits non-zero. -/
def w4iso : World :=
  ⟨fun _ => [⟨"t1", some "python a.py", some "main"⟩,
             ⟨"t2", some "python b.py", some "dev"⟩,
             ⟨"t3", some "python c.py", some "main"⟩],
   fun i => decide (i ≠ 1), fun _ => true⟩

/-- A task whose command merely contains the letters `rm` inside the word
`format` — not a deletion. -/
def rmTask : Task := ⟨"fmt", some "python format_data.py", some "main"⟩

/-- Queue world whose document consists of the single `format` task. -/
def w9rm : World := ⟨fun _ => [rmTask], fun _ => true, fun _ => true⟩

/-- Document valid for the first two reloads, then externally edited so the
task loses its `git_checkout_target`. -/
def w10edit : World :=
  ⟨fun i => if i < 2 then
      [⟨"q1", some "python a.py", some "main"⟩, ⟨"q2", some "python b.py", some "main"⟩,
       ⟨"q3", some "python c.py", some "main"⟩]
    else
      [⟨"q1", some "python a.py", some "main"⟩, ⟨"q2", some "python b.py", some "main"⟩,
       ⟨"q3", some "python c.py", none⟩],
   fun _ => true, fun _ => true⟩

/-- One-batch dataloaders: loss 1, one correct prediction over one sample. -/
def c1world : TWorld :=
  ⟨[⟨1, 1, 0, 0, 0, 1⟩], [⟨1, 1, 0, 0, 0, 1⟩], fun _ => 1⟩

/-- Two training batches with losses 10 and 2, one correct sample each. -/
def c6batches : List Batch :=
  [⟨10, 1, 0, 0, 0, 1⟩, ⟨2, 1, 0, 0, 0, 1⟩]

/-- Five-epoch world for the checkpoint-cadence witness. -/
def c5world : TWorld :=
  ⟨[⟨1, 1, 0, 0, 0, 1⟩], [⟨1, 1, 0, 0, 0, 1⟩], fun _ => 1⟩

/-- A checkpoint store holding an artifact at an explicit path recorded at
epoch 5, also reachable as the latest checkpoint of run `r1`. -/
def c2store : CkptStore :=
  ⟨fun p => if p = "runs/r1/epoch_5.pth" then some 5 else none,
   fun r => if r = "r1" then some 5 else none⟩

/-! ## Queue runner lemmas -/

theorem validate_of_isOk {r : Except QError Unit} (h : r.isOk = true) : r = .ok () := by
  cases r with
  | ok u => cases u; rfl
  | error e => simp [Except.isOk, Except.toBool] at h

theorem range_map_shift {α : Type} (f : ℕ → α) (m : ℕ) :
    (List.range (m + 1)).map f = f 0 :: (List.range m).map (fun j => f (j + 1)) := by
  rw [List.range_succ_eq_map, List.map_cons, List.map_map]
  rfl

theorem queueGuard_some_iff {i n : ℕ} : queueGuard i (some n) = true ↔ i < n := by
  simp [queueGuard]

theorem runQueueAux_step (w : World) (fuel taskIndex : ℕ) (numTasks : Option ℕ)
    (events : List QEvent) (hg : queueGuard taskIndex numTasks = true)
    (hv : validateTasks (w.docs taskIndex) = .ok ())
    (hs : taskIndex < (w.docs taskIndex).length) :
    runQueueAux w (fuel + 1) taskIndex numTasks events =
      runQueueAux w fuel (taskIndex + 1) (some (w.docs taskIndex).length)
        (attemptAt w taskIndex :: events) := by
  have hsel : (w.docs taskIndex)[taskIndex]? =
      some ((w.docs taskIndex).getD taskIndex default) := by
    rw [List.getElem?_eq_getElem hs, List.getD_eq_getElem _ _ hs]
  rw [runQueueAux, if_pos hg]
  simp only [hv, hsel]
  rfl

theorem runQueueAux_chain (w : World) (m : ℕ) :
    ∀ (i fuel : ℕ) (nt : Option ℕ) (events : List QEvent),
      queueGuard i nt = true →
      (∀ j, j < m + 1 →
        validateTasks (w.docs (i + j)) = .ok () ∧ i + j < (w.docs (i + j)).length) →
      (∀ j, 0 < j → j < m + 1 → i + j < (w.docs (i + j - 1)).length) →
      m + 1 ≤ fuel →
      runQueueAux w fuel i nt events =
        runQueueAux w (fuel - (m + 1)) (i + (m + 1)) (some ((w.docs (i + m)).length))
          (((List.range (m + 1)).map (fun j => attemptAt w (i + j))).reverse ++ events) := by
  induction m with
  | zero =>
    intro i fuel nt events hg hcv _hgd hf
    obtain ⟨f, rfl⟩ : ∃ f, fuel = f + 1 := ⟨fuel - 1, by omega⟩
    rw [runQueueAux_step w f i nt events hg (hcv 0 (by omega)).1
      (by simpa using (hcv 0 (by omega)).2)]
    rw [range_map_shift (fun j => attemptAt w (i + j)) 0]
    simp
  | succ m ih =>
    intro i fuel nt events hg hcv hgd hf
    obtain ⟨f, rfl⟩ : ∃ f, fuel = f + 1 := ⟨fuel - 1, by omega⟩
    rw [runQueueAux_step w f i nt events hg (by simpa using (hcv 0 (by omega)).1)
      (by simpa using (hcv 0 (by omega)).2)]
    rw [ih (i + 1) f (some ((w.docs i).length)) (attemptAt w i :: events)
      (queueGuard_some_iff.mpr (by simpa using hgd 1 (by omega) (by omega)))
      (fun j hj => by
        have h := hcv (j + 1) (by omega)
        constructor
        · have : i + 1 + j = i + (j + 1) := by omega
          rw [this]; exact h.1
        · have : i + 1 + j = i + (j + 1) := by omega
          rw [this]; exact h.2)
      (fun j hj0 hj => by
        have h := hgd (j + 1) (by omega) (by omega)
        have h1 : i + 1 + j = i + (j + 1) := by omega
        rw [h1]; exact h)
      (by omega)]
    have hfuel : f - (m + 1) = f + 1 - (m + 1 + 1) := by omega
    have hidx : i + 1 + (m + 1) = i + (m + 1 + 1) := by omega
    have hlast : i + 1 + m = i + (m + 1) := by omega
    have hfun : (fun j => attemptAt w (i + 1 + j)) = fun j => attemptAt w (i + (j + 1)) := by
      funext j; congr 1; omega
    rw [hfuel, hidx, hlast, hfun]
    congr 1
    rw [range_map_shift (fun j => attemptAt w (i + j)) (m + 1)]
    simp [List.reverse_cons, List.append_assoc]

theorem runQueue_reach (w : World) (M fuel : ℕ) (hc : cleanUpTo w M) (hf : M ≤ fuel) :
    runQueue w fuel =
      runQueueAux w (fuel - M) M (ntAfter w M) ((cleanEvents w M).reverse) := by
  cases M with
  | zero => simp [runQueue, cleanEvents, ntAfter]
  | succ m =>
    unfold runQueue
    rw [runQueueAux_chain w m 0 fuel none []
      (by simp [queueGuard])
      (fun j hj => by
        obtain ⟨h1, h2, _⟩ := hc j (by omega)
        exact ⟨by simpa using validate_of_isOk h1, by simpa using h2⟩)
      (fun j hj0 hj => by
        obtain ⟨_, _, h3⟩ := hc j (by omega)
        simpa using h3 hj0)
      hf]
    simp [ntAfter, cleanEvents]

theorem runQueue_clean_finish (w : World) (N fuel : ℕ) (hN : 1 ≤ N) (hc : cleanUpTo w N)
    (hstop : (w.docs (N - 1)).length = N) (hf : N < fuel) :
    runQueue w fuel = .finished (cleanEvents w N) N := by
  rw [runQueue_reach w N fuel hc hf.le]
  obtain ⟨f, hfe⟩ : ∃ f, fuel - N = f + 1 := ⟨fuel - N - 1, by omega⟩
  rw [hfe]
  obtain ⟨m, rfl⟩ : ∃ m, N = m + 1 := ⟨N - 1, by omega⟩
  rw [runQueueAux]
  have hg : ¬ queueGuard (m + 1) (ntAfter w (m + 1)) = true := by
    simp only [ntAfter, queueGuard_some_iff]
    simp at hstop
    omega
  rw [if_neg hg, List.reverse_reverse]

theorem runQueue_crash_validate (w : World) (M fuel : ℕ) (err : QError)
    (hc : cleanUpTo w M) (hg : queueGuard M (ntAfter w M) = true)
    (hbad : validateTasks (w.docs M) = .error err) (hf : M < fuel) :
    runQueue w fuel = .crashed (cleanEvents w M) err M := by
  rw [runQueue_reach w M fuel hc hf.le]
  obtain ⟨f, hfe⟩ : ∃ f, fuel - M = f + 1 := ⟨fuel - M - 1, by omega⟩
  rw [hfe, runQueueAux, if_pos hg]
  simp only [hbad, List.reverse_reverse]

theorem runQueue_crash_select (w : World) (M fuel : ℕ)
    (hc : cleanUpTo w M) (hg : queueGuard M (ntAfter w M) = true)
    (hok : validateTasks (w.docs M) = .ok ())
    (hshort : (w.docs M).length ≤ M) (hf : M < fuel) :
    runQueue w fuel = .crashed (cleanEvents w M) (.indexError M) M := by
  rw [runQueue_reach w M fuel hc hf.le]
  obtain ⟨f, hfe⟩ : ∃ f, fuel - M = f + 1 := ⟨fuel - M - 1, by omega⟩
  rw [hfe, runQueueAux, if_pos hg]
  simp only [hok, List.getElem?_eq_none hshort, List.reverse_reverse]

theorem validateTasks_rm (tasks : List Task) (t : Task) (r : String)
    (hall : ∀ t' ∈ tasks, t'.run ≠ none ∧ t'.git_checkout_target ≠ none)
    (ht : t ∈ tasks) (hr : t.run = some r) (hrm : pyContains r "rm" = true) :
    validateTasks tasks = .error .rmNotAllowed := by
  induction tasks with
  | nil => cases ht
  | cons t0 ts ih =>
    have h0 := hall t0 (List.mem_cons_self t0 ts)
    obtain ⟨r0, hr0⟩ := Option.ne_none_iff_exists'.mp h0.1
    obtain ⟨g0, hg0⟩ := Option.ne_none_iff_exists'.mp h0.2
    have hvt0 : validateTask t0 =
        if pyContains r0 "rm" = true then .error .rmNotAllowed else .ok () := by
      unfold validateTask
      rw [hr0, hg0]
    by_cases hcr : pyContains r0 "rm" = true
    · unfold validateTasks
      rw [hvt0, if_pos hcr]
    · unfold validateTasks
      rw [hvt0, if_neg hcr]
      rcases List.mem_cons.mp ht with rfl | hts
      · have hrr : r0 = r := by
          have := hr0.symm.trans hr
          injection this
        rw [hrr] at hcr
        exact absurd hrm hcr
      · exact ih (fun t' ht' => hall t' (List.mem_cons_of_mem _ ht')) hts

/-! ## Training loop lemmas -/

theorem ebind_ok {ε α β : Type} (a : α) (f : α → Except ε β) :
    (Except.ok a : Except ε α) >>= f = f a := rfl

theorem ebind_err {ε α β : Type} (e : ε) (f : α → Except ε β) :
    (Except.error e : Except ε α) >>= f = Except.error e := rfl

theorem trainStepAux_all_trainLog (n L e : ℕ) (bs : List Batch) :
    ∀ (batch : ℕ) (c : Counters) (evs : List TEvent) (cE : Counters),
      trainStepAux n L e bs batch c = .ok (evs, cE) → ∀ ev ∈ evs, isTrainLog ev = true := by
  induction bs with
  | nil =>
    intro batch c evs cE h ev hev
    simp only [trainStepAux, Except.ok.injEq, Prod.mk.injEq] at h
    rw [← h.1] at hev
    cases hev
  | cons b bs ih =>
    intro batch c evs cE h ev hev
    simp only [trainStepAux] at h
    split at h
    · cases hm : flushPoint b (accumB c b) with
      | error err => rw [hm] at h; simp [ebind_err] at h
      | ok m =>
        rw [hm] at h
        cases hr : trainStepAux n L e bs (batch + 1) (resetCounts (accumB c b)) with
        | error err => rw [hr] at h; simp [ebind_ok, ebind_err] at h
        | ok p =>
          obtain ⟨evs', cE'⟩ := p
          rw [hr] at h
          simp only [ebind_ok, Except.ok.injEq, Prod.mk.injEq] at h
          rw [← h.1] at hev
          rcases List.mem_cons.mp hev with rfl | htail
          · rfl
          · exact ih (batch + 1) (resetCounts (accumB c b)) evs' cE' (by rw [hr]) ev htail
    · exact ih (batch + 1) (accumB c b) evs cE h ev hev

theorem trainStepAux_train_loss (n L e : ℕ) (bs : List Batch) :
    ∀ (batch : ℕ) (c : Counters) (evs : List TEvent) (cE : Counters),
      trainStepAux n L e bs batch c = .ok (evs, cE) →
      cE.train_loss = c.train_loss + (bs.map Batch.loss).sum := by
  induction bs with
  | nil =>
    intro batch c evs cE h
    simp only [trainStepAux, Except.ok.injEq, Prod.mk.injEq] at h
    rw [← h.2]
    simp
  | cons b bs ih =>
    intro batch c evs cE h
    simp only [trainStepAux] at h
    split at h
    · cases hm : flushPoint b (accumB c b) with
      | error err => rw [hm] at h; simp [ebind_err] at h
      | ok m =>
        rw [hm] at h
        cases hr : trainStepAux n L e bs (batch + 1) (resetCounts (accumB c b)) with
        | error err => rw [hr] at h; simp [ebind_ok, ebind_err] at h
        | ok p =>
          obtain ⟨evs', cE'⟩ := p
          rw [hr] at h
          simp only [ebind_ok, Except.ok.injEq, Prod.mk.injEq] at h
          rw [← h.2, ih (batch + 1) (resetCounts (accumB c b)) evs' cE' (by rw [hr])]
          simp [resetCounts, accumB]
          ring
    · rw [ih (batch + 1) (accumB c b) evs cE h]
      simp [accumB]
      ring

theorem counts_accum {c : Counters} {win : List Batch} (h : countsOf c = windowCounts win)
    (b : Batch) : countsOf (accumB c b) = windowCounts (win ++ [b]) := by
  simp only [countsOf, windowCounts, windowSampleCount, accumB, List.map_append,
    List.sum_append, List.map_cons, List.sum_cons, List.map_nil, List.sum_nil,
    Prod.mk.injEq] at h ⊢
  omega

theorem counts_reset (c : Counters) : countsOf (resetCounts c) = windowCounts [] := by
  simp [countsOf, resetCounts, windowCounts, windowSampleCount]

theorem counts_num_predictions {c : Counters} {win : List Batch}
    (h : countsOf c = windowCounts win) : c.num_predictions = windowSampleCount win := by
  simp only [countsOf, windowCounts, Prod.mk.injEq] at h
  exact h.2.2.2.2

theorem flushPoint_eq_windowPoint {c : Counters} {win : List Batch}
    (h : countsOf c = windowCounts win) (b : Batch) (hnz : c.num_predictions ≠ 0) :
    flushPoint b c = .ok (windowPoint b win) := by
  have h5 := counts_num_predictions h
  simp only [countsOf, windowCounts, Prod.mk.injEq] at h
  obtain ⟨h1, h2, h3, h4, _⟩ := h
  unfold flushPoint windowPoint
  rw [if_neg hnz, h1, h2, h3, h4, h5]

theorem trainStepAux_spec_agree (n L e : ℕ) (bs : List Batch) :
    ∀ (batch : ℕ) (c : Counters) (win : List Batch),
      countsOf c = windowCounts win →
      ∀ (evs : List TEvent) (cE : Counters),
        trainStepAux n L e bs batch c = .ok (evs, cE) →
        trainStepSpecAux n L e bs batch win = some evs := by
  induction bs with
  | nil =>
    intro batch c win hw evs cE h
    simp only [trainStepAux, Except.ok.injEq, Prod.mk.injEq] at h
    simp only [trainStepSpecAux]
    rw [h.1]
  | cons b bs ih =>
    intro batch c win hw evs cE h
    have hw' := counts_accum hw b
    simp only [trainStepAux] at h
    simp only [trainStepSpecAux]
    by_cases hcond : batch ≠ 0 ∧ batch % L = 0
    · rw [if_pos hcond] at h ⊢
      cases hm : flushPoint b (accumB c b) with
      | error err => rw [hm] at h; simp [ebind_err] at h
      | ok m =>
        rw [hm] at h
        have hnz : (accumB c b).num_predictions ≠ 0 := by
          intro h0
          rw [flushPoint, if_pos h0] at hm
          cases hm
        have hspc : ¬ windowSampleCount (win ++ [b]) = 0 := by
          rw [← counts_num_predictions hw']
          exact hnz
        have hm' : m = windowPoint b (win ++ [b]) := by
          have hfw := flushPoint_eq_windowPoint hw' b hnz
          rw [hm] at hfw
          injection hfw
        rw [if_neg hspc]
        cases hr : trainStepAux n L e bs (batch + 1) (resetCounts (accumB c b)) with
        | error err => rw [hr] at h; simp [ebind_ok, ebind_err] at h
        | ok p =>
          obtain ⟨evs', cE'⟩ := p
          rw [hr] at h
          simp only [ebind_ok, Except.ok.injEq, Prod.mk.injEq] at h
          rw [ih (batch + 1) (resetCounts (accumB c b)) [] (counts_reset _) evs' cE'
            (by rw [hr])]
          rw [← h.1, hm']
    · rw [if_neg hcond] at h ⊢
      exact ih (batch + 1) (accumB c b) (win ++ [b]) hw' evs cE h

theorem testStep_shape (v : List Batch) (e : ℕ) (evs : List TEvent)
    (h : testStep v e = .ok evs) :
    ∃ m, evs = [TEvent.evalPass e, TEvent.valLog m (e : ℚ)] := by
  unfold testStep at h
  dsimp only at h
  split_ifs at h
  simp only [Except.ok.injEq] at h
  exact ⟨_, h.symm⟩

theorem trainLog_observers {ev : TEvent} (h : isTrainLog ev = true) :
    isTrainPass ev = false ∧ isEvalPass ev = false ∧ isLrLog ev = false ∧
    lrStepOf ev = none ∧ savedOf ev = none := by
  cases ev <;> simp_all [isTrainLog, isTrainPass, isEvalPass, isLrLog, lrStepOf, savedOf]

theorem lrSteps_append (a b : List TEvent) : lrSteps (a ++ b) = lrSteps a ++ lrSteps b := by
  simp [lrSteps]

theorem savedEpochs_append (a b : List TEvent) :
    savedEpochs (a ++ b) = savedEpochs a ++ savedEpochs b := by
  simp [savedEpochs]

theorem lrSteps_sched_cons (l : List TEvent) :
    lrSteps (TEvent.schedStep :: l) = lrSteps l := rfl

theorem lrSteps_save_cons (e : ℕ) (l : List TEvent) :
    lrSteps (TEvent.saveModel e :: l) = lrSteps l := rfl

theorem lrSteps_lr_cons (lr s : ℚ) (l : List TEvent) :
    lrSteps (TEvent.lrLog lr s :: l) = s :: lrSteps l := rfl

theorem savedEpochs_sched_cons (l : List TEvent) :
    savedEpochs (TEvent.schedStep :: l) = savedEpochs l := rfl

theorem savedEpochs_save_cons (e : ℕ) (l : List TEvent) :
    savedEpochs (TEvent.saveModel e :: l) = e :: savedEpochs l := rfl

theorem savedEpochs_lr_cons (lr s : ℚ) (l : List TEvent) :
    savedEpochs (TEvent.lrLog lr s :: l) = savedEpochs l := rfl

theorem trainStep_counts (bs : List Batch) (L e : ℕ) (evs : List TEvent) (c : Counters)
    (h : trainStep bs L e = .ok (evs, c)) :
    evs.countP isTrainPass = 1 ∧ evs.countP isEvalPass = 0 ∧
    evs.countP isLrLog = 0 ∧ lrSteps evs = [] ∧ savedEpochs evs = [] := by
  unfold trainStep at h
  cases haux : trainStepAux bs.length L e bs 0 zeroC with
  | error err => rw [haux] at h; simp [ebind_err] at h
  | ok p =>
    obtain ⟨evs0, c0⟩ := p
    rw [haux] at h
    simp only [ebind_ok, Except.ok.injEq, Prod.mk.injEq] at h
    rw [← h.1]
    have hall := trainStepAux_all_trainLog bs.length L e bs 0 zeroC evs0 c0 (by rw [haux])
    have hz : ∀ (p : TEvent → Bool), (∀ ev ∈ evs0, p ev = false) → evs0.countP p = 0 :=
      fun p hp => List.countP_eq_zero.mpr (fun a ha => by simp [hp a ha])
    refine ⟨?_, ?_, ?_, ?_, ?_⟩
    · rw [List.countP_cons_of_pos _ _ (by simp [isTrainPass])]
      rw [hz isTrainPass (fun ev hev => (trainLog_observers (hall ev hev)).1)]
    · rw [List.countP_cons_of_neg _ _ (by simp [isEvalPass])]
      exact hz isEvalPass (fun ev hev => (trainLog_observers (hall ev hev)).2.1)
    · rw [List.countP_cons_of_neg _ _ (by simp [isLrLog])]
      exact hz isLrLog (fun ev hev => (trainLog_observers (hall ev hev)).2.2.1)
    · show lrSteps (TEvent.trainPass e :: evs0) = []
      simp only [lrSteps, List.filterMap_cons]
      rw [show lrStepOf (TEvent.trainPass e) = none from rfl]
      exact List.filterMap_eq_nil_iff.mpr
        (fun ev hev => (trainLog_observers (hall ev hev)).2.2.2.1)
    · show savedEpochs (TEvent.trainPass e :: evs0) = []
      simp only [savedEpochs, List.filterMap_cons]
      rw [show savedOf (TEvent.trainPass e) = none from rfl]
      exact List.filterMap_eq_nil_iff.mpr
        (fun ev hev => (trainLog_observers (hall ev hev)).2.2.2.2)

theorem testStep_counts (v : List Batch) (e : ℕ) (evs : List TEvent)
    (h : testStep v e = .ok evs) :
    evs.countP isTrainPass = 0 ∧ evs.countP isEvalPass = 1 ∧
    evs.countP isLrLog = 0 ∧ lrSteps evs = [] ∧ savedEpochs evs = [] := by
  obtain ⟨m, rfl⟩ := testStep_shape v e evs h
  refine ⟨?_, ?_, ?_, ?_, ?_⟩ <;>
    simp [List.countP_cons, isTrainPass, isEvalPass, isLrLog, lrSteps, savedEpochs,
      lrStepOf, savedOf, List.filterMap_cons]

theorem trainLoop_counts (w : TWorld) (k E L : ℕ) (es : List ℕ) :
    ∀ (s : ℕ) (evs : List TEvent),
      trainLoop w k E L es s = .ok evs →
      evs.countP isTrainPass = es.length ∧
      evs.countP isEvalPass = es.length ∧
      evs.countP isLrLog = es.length ∧
      lrSteps evs = es.map (fun e : ℕ => (e : ℚ) + 1) ∧
      savedEpochs evs = es.filter (fun e => decide (e % k = 0 ∨ e = E - 1)) := by
  induction es with
  | nil =>
    intro s evs h
    simp only [trainLoop, Except.ok.injEq] at h
    rw [← h]
    simp [lrSteps, savedEpochs]
  | cons e es ih =>
    intro s evs h
    simp only [trainLoop] at h
    cases htr : trainStep w.trainBatches L e with
    | error err => rw [htr] at h; simp [ebind_err] at h
    | ok ptr =>
      obtain ⟨trEvs, cF⟩ := ptr
      rw [htr] at h
      simp only [ebind_ok] at h
      cases hte : testStep w.valBatches (e + 1) with
      | error err => rw [hte] at h; simp [ebind_err] at h
      | ok teEvs =>
        rw [hte] at h
        simp only [ebind_ok] at h
        cases hrec : trainLoop w k E L es (s + 1) with
        | error err => rw [hrec] at h; simp [ebind_err] at h
        | ok rest =>
          rw [hrec] at h
          simp only [ebind_ok, Except.ok.injEq] at h
          subst h
          obtain ⟨ht1, ht2, ht3, ht4, ht5⟩ := trainStep_counts _ _ _ _ _ htr
          obtain ⟨hv1, hv2, hv3, hv4, hv5⟩ := testStep_counts _ _ _ hte
          obtain ⟨hr1, hr2, hr3, hr4, hr5⟩ := ih (s + 1) rest hrec
          by_cases hcp : e % k = 0 ∨ e = E - 1
          · rw [if_pos hcp]
            refine ⟨?_, ?_, ?_, ?_, ?_⟩
            · simp only [List.countP_append, List.countP_cons, ht1, hv1, hr1, List.length_cons]
              simp [isTrainPass]
              omega
            · simp only [List.countP_append, List.countP_cons, ht2, hv2, hr2, List.length_cons]
              simp [isEvalPass]
              omega
            · simp only [List.countP_append, List.countP_cons, ht3, hv3, hr3, List.length_cons]
              simp [isLrLog]
              omega
            · rw [lrSteps_append, lrSteps_append, lrSteps_append, lrSteps_append, ht4, hv4,
                lrSteps_lr_cons, lrSteps_save_cons, lrSteps_sched_cons, hr4]
              simp [lrSteps]
            · rw [savedEpochs_append, savedEpochs_append, savedEpochs_append,
                savedEpochs_append, ht5, hv5, savedEpochs_lr_cons, savedEpochs_save_cons,
                savedEpochs_sched_cons, hr5, List.filter_cons, if_pos (decide_eq_true hcp)]
              simp [savedEpochs]
          · rw [if_neg hcp]
            refine ⟨?_, ?_, ?_, ?_, ?_⟩
            · simp only [List.countP_append, List.countP_cons, ht1, hv1, hr1, List.length_cons]
              simp [isTrainPass]
              omega
            · simp only [List.countP_append, List.countP_cons, ht2, hv2, hr2, List.length_cons]
              simp [isEvalPass]
              omega
            · simp only [List.countP_append, List.countP_cons, ht3, hv3, hr3, List.length_cons]
              simp [isLrLog]
              omega
            · rw [lrSteps_append, lrSteps_append, lrSteps_append, lrSteps_append, ht4, hv4,
                lrSteps_lr_cons, lrSteps_sched_cons, hr4]
              simp [lrSteps]
            · rw [savedEpochs_append, savedEpochs_append, savedEpochs_append,
                savedEpochs_append, ht5, hv5, savedEpochs_lr_cons,
                savedEpochs_sched_cons, hr5, List.filter_cons,
                if_neg (fun hd => hcp (of_decide_eq_true hd))]
              simp [savedEpochs]

theorem range'_cast_shift (s n : ℕ) :
    (List.range' s (n + 1)).map (fun e : ℕ => (e : ℚ)) =
      (s : ℚ) :: (List.range' s n).map (fun e : ℕ => (e : ℚ) + 1) := by
  induction n generalizing s with
  | zero => simp
  | succ n ih =>
    rw [show List.range' s (n + 1 + 1) = s :: List.range' (s + 1) (n + 1) from rfl]
    rw [List.map_cons, ih (s + 1)]
    rw [show List.range' s (n + 1) = s :: List.range' (s + 1) n from rfl, List.map_cons]
    simp

theorem train_unfold (w : TWorld) (s E k L : ℕ) (evs : List TEvent)
    (h : train w s E k L = .ok evs) :
    ∃ rest, trainLoop w k E L (List.range' s (E - s)) 0 = .ok rest ∧
      evs = TEvent.lrLog (w.lrAt 0) (s : ℚ) :: rest := by
  unfold train at h
  cases hl : trainLoop w k E L (List.range' s (E - s)) 0 with
  | error err => rw [hl] at h; simp [ebind_err] at h
  | ok rest =>
    rw [hl] at h
    simp only [ebind_ok, Except.ok.injEq] at h
    exact ⟨rest, rfl, h.symm⟩

theorem mem_savedEpochs {evs : List TEvent} {e : ℕ} :
    e ∈ savedEpochs evs ↔ TEvent.saveModel e ∈ evs := by
  simp only [savedEpochs, List.mem_filterMap]
  constructor
  · rintro ⟨ev, hev, hsome⟩
    cases ev <;> simp_all [savedOf]
  · intro hmem
    exact ⟨_, hmem, rfl⟩

/-! ## Claim theorems: training loop -/

/-- C1 (amended): over `[epoch_start, epoch_end)` with `epoch_start ≤
epoch_end`, a successful run performs exactly `epoch_end - epoch_start`
training passes and as many evaluation passes, but it logs the learning
rate `epoch_end - epoch_start + 1` times — once before the loop at position
`epoch_start` and once per epoch at position `e + 1` — i.e. at positions
`epoch_start, epoch_start + 1, …, epoch_end`, not twice per epoch. -/
theorem C1_pass_and_lr_counts (w : TWorld) (epoch_start epoch_end k L : ℕ)
    (evs : List TEvent) (hse : epoch_start ≤ epoch_end) (hk : 1 ≤ k) (hL : 1 ≤ L)
    (h : train w epoch_start epoch_end k L = .ok evs) :
    evs.countP isTrainPass = epoch_end - epoch_start ∧
    evs.countP isEvalPass = epoch_end - epoch_start ∧
    evs.countP isLrLog = (epoch_end - epoch_start) + 1 ∧
    lrSteps evs = (List.range' epoch_start (epoch_end - epoch_start + 1)).map
      (fun e : ℕ => (e : ℚ)) := by
  obtain ⟨rest, hl, rfl⟩ := train_unfold w epoch_start epoch_end k L evs h
  obtain ⟨h1, h2, h3, h4, _⟩ := trainLoop_counts w k epoch_end L _ 0 rest hl
  refine ⟨?_, ?_, ?_, ?_⟩
  · rw [List.countP_cons_of_neg _ _ (by simp [isTrainPass]), h1, List.length_range']
  · rw [List.countP_cons_of_neg _ _ (by simp [isEvalPass]), h2, List.length_range']
  · rw [List.countP_cons_of_pos _ _ (by simp [isLrLog]), h3, List.length_range']
  · rw [lrSteps_lr_cons, h4, range'_cast_shift]

/-- Witness for C1 (amended): two epochs over one-batch loaders produce two
training passes, two evaluation passes and three learning-rate log points at
positions 0, 1, 2. -/
theorem C1_pass_and_lr_counts_witness :
    (okEvents (train c1world 0 2 1 10)).countP isTrainPass = 2 ∧
    (okEvents (train c1world 0 2 1 10)).countP isEvalPass = 2 ∧
    (okEvents (train c1world 0 2 1 10)).countP isLrLog = 3 ∧
    lrSteps (okEvents (train c1world 0 2 1 10)) =
      (List.range' 0 3).map (fun e : ℕ => (e : ℚ)) :=
  C1_pass_and_lr_counts c1world 0 2 1 10 _ (by decide) (by decide) (by decide) rfl

/-- Counterexample to C1 as stated: the two-epoch run logs the learning
rate 3 times, not `2 * (epoch_end - epoch_start) = 4` times. -/
theorem C1_counterexample :
    lrCount (train c1world 0 2 1 10) = 3 ∧ 3 ≠ 2 * (2 - 0) := by
  decide

/-- C5: with `checkpoint_interval = k ≥ 1` over `[0, E)` with `E ≥ 1`, a
successful run checkpoints epoch `e` exactly when `e < E` and (`k ∣ e` or
`e = E - 1`): the multiples of `k` together with the final epoch. -/
theorem C5_checkpoint_cadence (w : TWorld) (k E L : ℕ) (evs : List TEvent)
    (hk : 1 ≤ k) (hE : 1 ≤ E) (hL : 1 ≤ L) (h : train w 0 E k L = .ok evs) :
    ∀ e, TEvent.saveModel e ∈ evs ↔ e < E ∧ (k ∣ e ∨ e = E - 1) := by
  obtain ⟨rest, hl, rfl⟩ := train_unfold w 0 E k L evs h
  obtain ⟨_, _, _, _, h5⟩ := trainLoop_counts w k E L _ 0 rest hl
  intro e
  rw [← mem_savedEpochs, savedEpochs_lr_cons, h5, List.mem_filter]
  constructor
  · rintro ⟨hmem, hdec⟩
    have hd := of_decide_eq_true hdec
    have hr := List.mem_range'_1.mp hmem
    refine ⟨by omega, ?_⟩
    rcases hd with hd | hd
    · exact Or.inl (Nat.dvd_of_mod_eq_zero hd)
    · exact Or.inr hd
  · rintro ⟨hlt, hd⟩
    refine ⟨List.mem_range'_1.mpr ⟨by omega, by omega⟩, decide_eq_true ?_⟩
    rcases hd with hd | hd
    · obtain ⟨q, rfl⟩ := hd
      exact Or.inl (Nat.mul_mod_right k q)
    · exact Or.inr hd

/-- Witness for C5: with interval 2 over `[0, 5)`, epoch 4 is checkpointed
(final epoch) and epoch 3 is not (neither a multiple of 2 nor final). -/
theorem C5_checkpoint_cadence_witness :
    (TEvent.saveModel 4 ∈ okEvents (train c5world 0 5 2 10) ↔
      4 < 5 ∧ (2 ∣ 4 ∨ 4 = 5 - 1)) ∧
    (TEvent.saveModel 3 ∈ okEvents (train c5world 0 5 2 10) ↔
      3 < 5 ∧ (2 ∣ 3 ∨ 3 = 5 - 1)) :=
  ⟨C5_checkpoint_cadence c5world 2 5 10 _ (by decide) (by decide) (by decide) rfl 4,
   C5_checkpoint_cadence c5world 2 5 10 _ (by decide) (by decide) (by decide) rfl 3⟩

/-- C6 (amended): each flushed training metric point reports the windowed
ratios of the four category counts over the window accumulated since the
last flush, but its `train/loss` value is the loss of the last batch before
the flush, not the windowed average of the losses: a successful
`train_step` trace coincides with the explicit-window reference recursion
`trainStepSpecAux`, whose flush points are built by `windowPoint` (windowed
category ratios, last-batch loss). -/
theorem C6_flush_reports (bs : List Batch) (L e : ℕ) (evs : List TEvent) (c : Counters)
    (hL : 1 ≤ L) (h : trainStep bs L e = .ok (TEvent.trainPass e :: evs, c)) :
    trainStepSpecAux bs.length L e bs 0 [] = some evs := by
  unfold trainStep at h
  cases haux : trainStepAux bs.length L e bs 0 zeroC with
  | error err => rw [haux] at h; simp [ebind_err] at h
  | ok p =>
    obtain ⟨evs0, c0⟩ := p
    rw [haux] at h
    simp only [ebind_ok, Except.ok.injEq, Prod.mk.injEq] at h
    have he : evs0 = evs := by
      have h1 := h.1
      injection h1
    rw [← he]
    exact trainStepAux_spec_agree bs.length L e bs 0 zeroC [] rfl evs0 c0 (by rw [haux])

/-- Witness for C6 (amended): with `log_interval = 1` over batches of losses
10 and 2, the one flush carries loss 2 (the second batch's own loss) and
windowed accuracy 1, matching the reference recursion. -/
theorem C6_flush_reports_witness :
    trainStepSpecAux c6batches.length 1 0 c6batches 0 [] =
      some [TEvent.trainLog ⟨2, 1, 0, 0, 0⟩ (1 / 2)] :=
  C6_flush_reports c6batches 1 0 [TEvent.trainLog ⟨2, 1, 0, 0, 0⟩ (1 / 2)]
    ⟨12, 0, 0, 0, 0, 0⟩ (by decide)
    (by simp [trainStep, trainStepAux, flushPoint, accumB, zeroC, resetCounts,
          c6batches, ebind_ok]
        norm_num)

/-- Counterexample to C6 as stated: the flushed point's loss value is 2 —
the loss of the last batch before the flush — while the windowed average of
the per-step losses over the window (loss sum 12 over sample span 2) is 6. -/
theorem C6_counterexample :
    trainStep c6batches 1 0 =
      .ok ([TEvent.trainPass 0, TEvent.trainLog ⟨2, 1, 0, 0, 0⟩ (1 / 2)],
        ⟨12, 0, 0, 0, 0, 0⟩) ∧
    windowLossAvg c6batches = 6 ∧ (2 : ℚ) ≠ 6 := by
  refine ⟨?_, ?_, by norm_num⟩
  · simp [trainStep, trainStepAux, flushPoint, accumB, zeroC, resetCounts,
      c6batches, ebind_ok]
    norm_num
  · norm_num [windowLossAvg, windowSampleCount, c6batches]

/-- C7 (amended): a flush resets the four category counts and the sample
count to zero but not the accumulated loss sum — at the end of a successful
training pass the `train_loss` accumulator holds the total loss of *all*
batches of the pass, across flushes — and flushing with a zero sample
count, as in an evaluation pass over an empty dataloader, raises
`ZeroDivisionError` rather than yielding a defined result. -/
theorem C7_flush_reset_and_zero_samples :
    (∀ (e : ℕ), testStep [] e = .error .divByZero) ∧
    (∀ (bs : List Batch) (L e : ℕ) (evs : List TEvent) (c : Counters),
      trainStep bs L e = .ok (evs, c) → c.train_loss = (bs.map Batch.loss).sum) ∧
    (∀ (n L e : ℕ) (b : Batch) (bs : List Batch) (batch : ℕ) (c : Counters)
      (m : MetricPoint),
      batch ≠ 0 → batch % L = 0 → flushPoint b (accumB c b) = .ok m →
      trainStepAux n L e (b :: bs) batch c =
        (trainStepAux n L e bs (batch + 1)
          { train_loss := c.train_loss + b.loss, num_correct := 0,
            num_incorrect_localization := 0, num_incorrect_other := 0,
            num_incorrect_background := 0, num_predictions := 0 }).map
        (fun p => (TEvent.trainLog m ((e : ℚ) + (batch : ℚ) / (n : ℚ)) :: p.1, p.2))) := by
  refine ⟨fun e => rfl, ?_, ?_⟩
  · intro bs L e evs c h
    unfold trainStep at h
    cases haux : trainStepAux bs.length L e bs 0 zeroC with
    | error err => rw [haux] at h; simp [ebind_err] at h
    | ok p =>
      obtain ⟨evs0, c0⟩ := p
      rw [haux] at h
      simp only [ebind_ok, Except.ok.injEq, Prod.mk.injEq] at h
      rw [← h.2, trainStepAux_train_loss bs.length L e bs 0 zeroC evs0 c0 (by rw [haux])]
      simp [zeroC]
  · intro n L e b bs batch c m hb0 hbL hm
    simp only [trainStepAux]
    rw [if_pos ⟨hb0, hbL⟩, hm]
    simp only [ebind_ok]
    have hrc : (⟨c.train_loss + b.loss, 0, 0, 0, 0, 0⟩ : Counters) =
        resetCounts (accumB c b) := rfl
    rw [hrc]
    cases hr : trainStepAux n L e bs (batch + 1) (resetCounts (accumB c b)) with
    | error err => rfl
    | ok p =>
      obtain ⟨evs', cE'⟩ := p
      rfl

/-- Witness for C7 (amended): the empty evaluation pass faults with the
division error, and the final accumulator of the two-batch pass holds the
full loss sum 12 (losses 10 and 2) even though the pass ended on a flush. -/
theorem C7_flush_reset_and_zero_samples_witness :
    testStep [] 1 = .error .divByZero ∧
    (⟨12, 0, 0, 0, 0, 0⟩ : Counters).train_loss = (c6batches.map Batch.loss).sum :=
  ⟨C7_flush_reset_and_zero_samples.1 1,
   C7_flush_reset_and_zero_samples.2.1 c6batches 1 0
     [TEvent.trainPass 0, TEvent.trainLog ⟨2, 1, 0, 0, 0⟩ (1 / 2)]
     ⟨12, 0, 0, 0, 0, 0⟩
     (by simp [trainStep, trainStepAux, flushPoint, accumB, zeroC, resetCounts,
           c6batches, ebind_ok]
         norm_num)⟩

/-- Counterexample to C7 as stated: an evaluation pass over zero samples
raises the division-by-zero error (not a defined result), and after the
final flush of a training pass the window's loss-sum counter holds 12, not
zero — the flush does not reset all counters. -/
theorem C7_counterexample :
    testStep [] 1 = .error .divByZero ∧
    trainStep c6batches 1 0 =
      .ok ([TEvent.trainPass 0, TEvent.trainLog ⟨2, 1, 0, 0, 0⟩ (1 / 2)],
        ⟨12, 0, 0, 0, 0, 0⟩) ∧
    (12 : ℚ) ≠ 0 := by
  refine ⟨rfl, ?_, by norm_num⟩
  simp [trainStep, trainStepAux, flushPoint, accumB, zeroC, resetCounts,
    c6batches, ebind_ok]
  norm_num

/-! ## Claim theorems: entry point -/

/-- C2 (code evaluation): whenever an explicit
`continue_from_checkpoint_path` is supplied, the guard
`run_id is not None and path is None` is false, so `load_checkpoint` is
never consulted and `epoch_start = 0` — even though the spec-modelled
loader would resolve exactly that artifact (here recorded at epoch 5). -/
theorem C2_explicit_path_ignored :
    (∀ (store : CkptStore) (run_id : Option String) (p : String),
      resumeDecision store run_id (some p) = .ok (none, 0)) ∧
    load_checkpoint c2store (some "r1") (some "runs/r1/epoch_5.pth") =
      .ok (.explicitPath "runs/r1/epoch_5.pth", 5) := by
  constructor
  · intro store run_id p
    unfold resumeDecision
    rw [if_neg (by simp)]
  · rfl

/-- C8: any confirmation input whose Python-lowercased form differs from
`"yes"` makes the entry point raise before `train(args)` is invoked — no
dataloader, model, or run construction happens. -/
theorem C8_confirmation_gate (inp run_id : String) (h : pyLower inp ≠ "yes") :
    mainConfirm inp run_id = .error .rejected := by
  unfold mainConfirm
  rw [if_pos h]

/-- Witness for C8: the input `"no"` aborts the run. -/
theorem C8_confirmation_gate_witness :
    mainConfirm "no" "cpu_run_on_image_net" = .error .rejected :=
  C8_confirmation_gate "no" "cpu_run_on_image_net" (by decide)

/-! ## Claim theorems: task queue -/

/-- C3 (amended): the loop guard compares the position counter against the
length of the document loaded in the *previous* iteration (`num_tasks` is
updated after the attempt), so: (a) when every reload validates and stays
long enough, the runner stops cleanly exactly when the counter reaches the
length of the last reloaded document — in particular a grown document keeps
the loop running past the original length; (b) if the document shrinks so
that the counter is at or past its new length while the stale guard still
passes, the next iteration crashes with an uncaught IndexError at the
positional selection instead of stopping cleanly. -/
theorem C3_termination_behavior :
    (∀ (w : World) (N fuel : ℕ), 1 ≤ N → cleanUpTo w N →
      (w.docs (N - 1)).length = N → N < fuel →
      runQueue w fuel = .finished (cleanEvents w N) N) ∧
    (∀ (w : World) (M fuel : ℕ), cleanUpTo w M →
      queueGuard M (ntAfter w M) = true →
      (validateTasks (w.docs M)).isOk = true → (w.docs M).length ≤ M → M < fuel →
      runQueue w fuel = .crashed (cleanEvents w M) (.indexError M) M) :=
  ⟨fun w N fuel hN hc hstop hf => runQueue_clean_finish w N fuel hN hc hstop hf,
   fun w M fuel hc hg hok hshort hf =>
     runQueue_crash_select w M fuel hc hg (validate_of_isOk hok) hshort hf⟩

/-- Witness for C3: the grown document finishes at position 3 (past its
original length 2); the shrunken document crashes with an IndexError at
position 1 after one successful attempt. -/
theorem C3_termination_behavior_witness :
    runQueue w3grow 9 = .finished (cleanEvents w3grow 3) 3 ∧
    runQueue w3shr 9 = .crashed (cleanEvents w3shr 1) (.indexError 1) 1 :=
  ⟨C3_termination_behavior.1 w3grow 3 9 (by decide) (by decide) (by decide) (by decide),
   C3_termination_behavior.2 w3shr 1 9 (by decide) (by decide) (by decide) (by decide)
     (by decide)⟩

/-- Counterexample to C3 as stated: after the document shrinks from three
tasks to one, the counter (1) is at its new length, yet the runner does not
stop cleanly — it raises an uncaught IndexError on the next iteration. -/
theorem C3_counterexample :
    runQueue w3shr 9 = .crashed [.taskSuccess 0 "a"] (.indexError 1) 1 := by
  decide

/-- C4: per-task failure isolation — whatever the per-position exit
statuses of the checkout-and-pull and run commands are, a clean-structured
queue run attempts every position and finishes; the report at position `i`
is a failure exactly when checkout or run exited non-zero there, a success
otherwise. -/
theorem C4_failure_isolation (w : World) (N fuel : ℕ) (hN : 1 ≤ N) (hc : cleanUpTo w N)
    (hstop : (w.docs (N - 1)).length = N) (hf : N < fuel) :
    runQueue w fuel = .finished (cleanEvents w N) N ∧
    (cleanEvents w N).length = N ∧
    (∀ i, i < N → (w.checkoutOk i && w.runOk i) = false →
      (cleanEvents w N)[i]? = some (.taskFailure i ((w.docs i).getD i default).name)) ∧
    (∀ i, i < N → (w.checkoutOk i && w.runOk i) = true →
      (cleanEvents w N)[i]? = some (.taskSuccess i ((w.docs i).getD i default).name)) := by
  refine ⟨runQueue_clean_finish w N fuel hN hc hstop hf, by simp [cleanEvents], ?_, ?_⟩
  · intro i hi hfail
    simp [cleanEvents, List.getElem?_range hi, attemptAt, taskAttempt, hfail]
  · intro i hi hsucc
    simp [cleanEvents, List.getElem?_range hi, attemptAt, taskAttempt, hsucc]

/-- Witness for C4: the spec's own three-task scenario — task 2's checkout
fails, the position still reaches 3, with exactly one failure report. -/
theorem C4_failure_isolation_witness :
    runQueue w4iso 5 = .finished
      [.taskSuccess 0 "t1", .taskFailure 1 "t2", .taskSuccess 2 "t3"] 3 ∧
    (cleanEvents w4iso 3)[1]? = some (.taskFailure 1 "t2") := by
  have h := C4_failure_isolation w4iso 3 5 (by decide) (by decide) (by decide) (by decide)
  exact ⟨h.1.trans (by decide), h.2.2.1 1 (by decide) (by decide)⟩

/-- C9: any document all of whose tasks carry `run` and
`git_checkout_target` keys but in which some task's `run` string contains
the two-character substring `"rm"` anywhere is rejected at load with the
`rm`-not-allowed ValueError; fed to the runner, such a document crashes the
very first iteration with no task attempted. -/
theorem C9_rm_substring_rejected (tasks : List Task) (t : Task) (r : String)
    (hall : ∀ t' ∈ tasks, t'.run ≠ none ∧ t'.git_checkout_target ≠ none)
    (ht : t ∈ tasks) (hr : t.run = some r) (hrm : pyContains r "rm" = true)
    (w : World) (fuel : ℕ) (hdoc : w.docs 0 = tasks) (hfuel : 0 < fuel) :
    validateTasks tasks = .error .rmNotAllowed ∧
    runQueue w fuel = .crashed [] .rmNotAllowed 0 := by
  have hval := validateTasks_rm tasks t r hall ht hr hrm
  refine ⟨hval, ?_⟩
  have h := runQueue_crash_validate w 0 fuel .rmNotAllowed
    (fun i hi => absurd hi (by omega)) rfl (hdoc ▸ hval) hfuel
  simpa [cleanEvents] using h

/-- Witness for C9: a non-destructive command containing `rm` inside
`format` is rejected at load and the runner attempts nothing. -/
theorem C9_rm_substring_rejected_witness :
    validateTasks [rmTask] = .error .rmNotAllowed ∧
    runQueue w9rm 7 = .crashed [] .rmNotAllowed 0 :=
  C9_rm_substring_rejected [rmTask] rmTask "python format_data.py"
    (by decide) (by decide) (by decide) (by decide) w9rm 7 rfl (by decide)

/-- C10: the document is reloaded and fully re-validated before each task
execution; if the reload before iteration `M` fails validation (after `M`
cleanly attempted tasks), the `ValueError` is not caught by the per-task
isolation (which only catches process exits) and the whole remaining queue
aborts: exactly the first `M` tasks were attempted. -/
theorem C10_validation_aborts_queue (w : World) (M fuel : ℕ) (err : QError)
    (hc : cleanUpTo w M) (hg : queueGuard M (ntAfter w M) = true)
    (hbad : validateTasks (w.docs M) = .error err) (hf : M < fuel) :
    runQueue w fuel = .crashed (cleanEvents w M) err M :=
  runQueue_crash_validate w M fuel err hc hg hbad hf

/-- Witness for C10: two tasks execute, the edit makes task `q3` invalid,
and the third iteration aborts the queue with the validation error. -/
theorem C10_validation_aborts_queue_witness :
    runQueue w10edit 9 =
      .crashed [.taskSuccess 0 "q1", .taskSuccess 1 "q2"] .missingCheckoutTarget 2 :=
  (C10_validation_aborts_queue w10edit 2 9 .missingCheckoutTarget
    (by decide) (by decide) (by decide) (by decide)).trans (by decide)

end YoloSpec
